import Mathlib

set_option maxHeartbeats 1000000

/-- Snapshot of the filesystem as seen by one scan. The stat component gives
the size returned by os.stat, none when that call raises OSError; the read
component gives the byte content obtained by opening and reading the file,
none when open raises. The two are separate maps because os.stat and open
are distinct system calls that can fail independently. -/
structure FS where
  stat : String → Option Nat
  read : String → Option (List Nat)

/-- Embedding of the NamedTuple MyFile (duplicatefile.py lines 256-270):
a path, an optional size and an optional hash. -/
structure MyFile where
  path : String
  size : Option Nat
  hash : Option String
deriving DecidableEq

/-- POSIX os.path.basename: the part of the path after the last slash,
computed on the character list so that it evaluates by reduction. -/
def os_path_basename (s : String) : String :=
  String.mk ((s.data.reverse.takeWhile (fun c => c ≠ '/')).reverse)

/-- os.path.join for a directory and a bare filename as yielded by os.walk. -/
def os_path_join (base filename : String) : String :=
  base ++ "/" ++ filename

/-- MyFile.get_size (lines 272-291): builds the record from os.stat with the
hash left unset. os.stat raises OSError for a missing or unreadable entry,
modelled as the error case; the body has no exception handler. -/
def MyFile.get_size (fs : FS) (path : String) : Except String MyFile :=
  match fs.stat path with
  | some n => Except.ok ⟨path, some n, none⟩
  | none => Except.error path

/-- MyFile.get_hash (lines 293-317): streams the file content through the
xxh64 digest, here the parameter H, and returns a copy of the record with
only the hash field replaced, as NamedTuple replace does. Feeding the
content to the hasher in blocks of any size produces the digest of the whole
content, so the digest is modelled as H applied to the full content. Opening
the file raises OSError when it is unreadable, modelled as the error case;
the body has no exception handler. -/
def MyFile.get_hash (H : List Nat → String) (fs : FS) (f : MyFile) :
    Except String MyFile :=
  match fs.read f.path with
  | some c => Except.ok ⟨f.path, f.size, some (H c)⟩
  | none => Except.error f.path

/-- Semantics of a Python list comprehension whose element expression may
raise: elements are produced left to right and the first exception aborts
the whole comprehension. -/
def mapExcept (f : α → Except ε β) : List α → Except ε (List β)
  | [] => Except.ok []
  | a :: l =>
    match f a with
    | Except.error e => Except.error e
    | Except.ok b =>
      match mapExcept f l with
      | Except.error e => Except.error e
      | Except.ok bs => Except.ok (b :: bs)

/-- Counter built over the sizes (line 381-382): the count of records whose
size equals s. -/
def count_size (files : List MyFile) (s : Option Nat) : Nat :=
  (files.filter (fun f => f.size = s)).length

/-- The records kept by phase 1 of __find_duplicate (lines 383-385): those
whose size occurs at least twice in the full list. get_hash is invoked on
exactly these records and on no other. -/
def size_candidates (files : List MyFile) : List MyFile :=
  files.filter (fun f => 2 ≤ count_size files f.size)

/-- Counter built over the hashes (lines 386-387): the count of hashed
records whose hash equals k. -/
def count_hash (hashed : List MyFile) (k : Option String) : Nat :=
  (hashed.filter (fun f => f.hash = k)).length

/-- Keys of a Python Counter built from a list, in first-occurrence order,
which is dict insertion order from Python 3.7 on. -/
def counter_keys [DecidableEq α] : List α → List α
  | [] => []
  | a :: l => a :: (counter_keys l).filter (fun b => b ≠ a)

/-- Phase 3 of __find_duplicate (lines 388-390): one group per hash counted
at least twice, in Counter key order, each group listing the hashed records
carrying that hash in scan order. -/
def dup_groups (hashed : List MyFile) : List (List MyFile) :=
  ((counter_keys (hashed.map MyFile.hash)).filter
      (fun k => 2 ≤ count_hash hashed k)).map
    (fun k => hashed.filter (fun f => f.hash = k))

/-- DetectDuplicate.__find_duplicate (lines 380-390). An OSError raised by
any get_hash call propagates and aborts the whole computation. -/
def find_duplicate (H : List Nat → String) (fs : FS) (files : List MyFile) :
    Except String (List (List MyFile)) :=
  match mapExcept (MyFile.get_hash H fs) (size_candidates files) with
  | Except.error e => Except.error e
  | Except.ok file_redundant_size => Except.ok (dup_groups file_redundant_size)

/-- Flattening of the os.walk output consumed by __get_files: one pair of
base directory and filename per regular file, in traversal order. The dirs
component of each walk triple only drives the recursion and carries no file,
so it does not appear. -/
def walk_entries (walk : List (String × List String)) : List (String × String) :=
  (walk.map (fun bf => bf.2.map (fun filename => (bf.1, filename)))).flatten

/-- The walk entries surviving the exclusion filter of __get_files
(line 397). -/
def filtered_walk (walk : List (String × List String)) : List (String × String) :=
  (walk_entries walk).filter (fun e => os_path_basename e.2 ∉ [".DS_Store"])

/-- DetectDuplicate.__get_files (lines 392-397). An OSError raised by any
get_size call propagates and aborts the whole computation. -/
def get_files (fs : FS) (walk : List (String × List String)) :
    Except String (List MyFile) :=
  mapExcept (fun e => MyFile.get_size fs (os_path_join e.1 e.2)) (filtered_walk walk)

/-- JSON values appearing in the summary document. -/
inductive JVal where
  | str : String → JVal
  | obj : List (Option String × List String) → JVal
  | arr : List String → JVal
deriving DecidableEq

/-- The expression cur_hash[0].hash of line 403 taking the hash of the first
member of a group; the groups reaching it are proved nonempty, so the
default branch is unreachable on actual detector output. -/
def firstHash : List MyFile → Option String
  | [] => none
  | f :: _ => f.hash

/-- DetectDuplicate.__gen_details (lines 399-406): the summary dict with its
three keys in source order. The duplicate dict is keyed by the head hash of
each group; the keys are proved pairwise distinct, so the dict holds exactly
the listed entries. -/
def gen_details (p : String) (files : List MyFile) (hash : List (List MyFile)) :
    List (String × JVal) :=
  [("path", JVal.str p),
   ("duplicate", JVal.obj (hash.map (fun g => (firstHash g, g.map MyFile.path)))),
   ("files", JVal.arr (files.map MyFile.path))]

/-- State of a constructed DetectDuplicate object (lines 326-337). -/
structure DetectDuplicate where
  path : String
  files : List MyFile
  hash : List (List MyFile)
  summary : List (String × JVal)
deriving DecidableEq

/-- DetectDuplicate.__init__ (lines 333-337): collect the files, find the
duplicates, generate the details. Any OSError raised inside propagates out
of the constructor. -/
def DetectDuplicate.init (H : List Nat → String) (fs : FS) (p : String)
    (walk : List (String × List String)) : Except String DetectDuplicate :=
  match get_files fs walk with
  | Except.error e => Except.error e
  | Except.ok files =>
    match find_duplicate H fs files with
    | Except.error e => Except.error e
    | Except.ok hash => Except.ok ⟨p, files, hash, gen_details p files hash⟩

/-- DetectDuplicate.get_json (lines 363-378) renders the summary through
json.dumps; the top level of the emitted document is exactly the summary
object, which this model returns. -/
def DetectDuplicate.get_json (d : DetectDuplicate) : List (String × JVal) :=
  d.summary

/-- DetectDuplicate.num_of_files (lines 348-361). -/
def DetectDuplicate.num_of_files (d : DetectDuplicate) : Nat :=
  d.files.length

/-- Model of getattr applied to the os module for integer attributes with a
fallback value (lines 59-62). -/
def getattr_int (os_attrs : List (String × Nat)) (name : String) (dflt : Nat) : Nat :=
  (os_attrs.lookup name).getD dflt

/-- The exit-status attributes the os module exposes on a POSIX system, with
the sysexits.h values used by Linux and macOS. On Windows none of them exist
and the getattr fallbacks apply instead. -/
def posix_os : List (String × Nat) :=
  [("EX_OK", 0), ("EX_USAGE", 64), ("EX_CANTCREAT", 73), ("EX_CONFIG", 78)]

/-- Line 59. -/
def EX_OK (os_attrs : List (String × Nat)) : Nat :=
  getattr_int os_attrs "EX_OK" 0

/-- Line 60. -/
def EX_USAGE (os_attrs : List (String × Nat)) : Nat :=
  getattr_int os_attrs "EX_USAGE" 64

/-- Line 61: the source looks up the attribute named EX_USAGE, not
EX_CONFIG, with fallback 78. -/
def EX_CONFIG (os_attrs : List (String × Nat)) : Nat :=
  getattr_int os_attrs "EX_USAGE" 78

/-- Line 62: the source looks up the attribute named EX_USAGE, not
EX_CANTCREAT, with fallback 73. -/
def EX_CANTCREAT (os_attrs : List (String × Nat)) : Nat :=
  getattr_int os_attrs "EX_USAGE" 73

/-- Environment facts consulted by main: the Python version check outcome,
the module import outcome, the isdir check on the path argument, the dump
flag, and whether the dump file write succeeds. -/
structure MainEnv where
  version_ok : Bool
  import_done : Bool
  path_isdir : Bool
  dump : Bool
  dump_write_ok : Bool

/-- check_python (lines 412-433) reports whether the interpreter version is
at least the required minimum. -/
def check_python (env : MainEnv) : Bool := env.version_ok

/-- check_import (lines 436-453) reports whether the optional modules were
imported. -/
def check_import (env : MainEnv) : Bool := env.import_done

/-- check_arg (lines 467-491) reports whether the path argument is a
directory. -/
def check_arg (env : MainEnv) : Bool := env.path_isdir

/-- dump_result (lines 494-514) reports whether the JSON dump was written. -/
def dump_result (env : MainEnv) : Bool := env.dump_write_ok

/-- Exit-code skeleton of main (lines 517-547); the qualified name stands in
for the module-level main function of the source. -/
def duplicatefile.main (os_attrs : List (String × Nat)) (env : MainEnv) : Nat :=
  if !check_python env || !check_import env then EX_CONFIG os_attrs
  else if !check_arg env then EX_USAGE os_attrs
  else if env.dump && !dump_result env then EX_CANTCREAT os_attrs
  else EX_OK os_attrs

/-- A group contains a record carrying the given path. -/
def containsPath (g : List MyFile) (p : String) : Prop :=
  ∃ r, r ∈ g ∧ r.path = p

/-- Concrete digest used to instantiate theorems whose hypotheses constrain
the hash: the byte list rendered as a string, one character per byte. -/
def H0 (c : List Nat) : String := String.mk (c.map Char.ofNat)

/-- Builds a snapshot in which stat agrees with the length of the readable
content, the situation of a scan with no concurrent modification. -/
def fs_of_read (r : String → Option (List Nat)) : FS :=
  ⟨fun p => (r p).map List.length, r⟩

/-- Contents of a small concrete tree: two pairs of identical files, one
file of colliding size but unique content, one file of unique size. -/
def readW : String → Option (List Nat) := fun p =>
  if p = "t/a" then some [1, 2]
  else if p = "t/b" then some [1, 2]
  else if p = "t/c" then some [3, 4]
  else if p = "t/d" then some [9]
  else if p = "t/e" then some [5, 6]
  else if p = "t/f" then some [5, 6]
  else none

/-- The concrete snapshot over readW. -/
def fsW : FS := fs_of_read readW

/-- A second snapshot agreeing with fsW on every walked path but differing
elsewhere. -/
def readW2 : String → Option (List Nat) := fun p =>
  if p = "u/outside" then some [0] else readW p

/-- The concrete snapshot over readW2. -/
def fsW2 : FS := fs_of_read readW2

/-- Walk output over the concrete tree. -/
def walkW : List (String × List String) := [("t", ["a", "b", "c", "d", "e", "f"])]

/-- Records discovered in the concrete tree. -/
def recA : MyFile := ⟨"t/a", some 2, none⟩

/-- Second discovered record. -/
def recB : MyFile := ⟨"t/b", some 2, none⟩

/-- Third discovered record, of colliding size but unique content. -/
def recC : MyFile := ⟨"t/c", some 2, none⟩

/-- Fourth discovered record, of unique size. -/
def recD : MyFile := ⟨"t/d", some 1, none⟩

/-- Fifth discovered record. -/
def recE : MyFile := ⟨"t/e", some 2, none⟩

/-- Sixth discovered record. -/
def recF : MyFile := ⟨"t/f", some 2, none⟩

/-- The discovered file list of the concrete tree. -/
def filesW : List MyFile := [recA, recB, recC, recD, recE, recF]

/-- Hashed version of recA. -/
def hashA : MyFile := ⟨"t/a", some 2, some (H0 [1, 2])⟩

/-- Hashed version of recB. -/
def hashB : MyFile := ⟨"t/b", some 2, some (H0 [1, 2])⟩

/-- Hashed version of recE. -/
def hashE : MyFile := ⟨"t/e", some 2, some (H0 [5, 6])⟩

/-- Hashed version of recF. -/
def hashF : MyFile := ⟨"t/f", some 2, some (H0 [5, 6])⟩

/-- The duplicate groups of the concrete tree. -/
def groupsW : List (List MyFile) := [[hashA, hashB], [hashE, hashF]]

/-- The detector state produced on the concrete tree. -/
def dW : DetectDuplicate := ⟨"t", filesW, groupsW, gen_details "t" filesW groupsW⟩

/-- Snapshot for the unreadable-candidate scenario: three files of equal
size, the third of which stats fine but cannot be opened. -/
def fs3 : FS :=
  ⟨fun p => if p = "d/a" then some 1 else if p = "d/b" then some 1
    else if p = "d/c" then some 1 else none,
   fun p => if p = "d/a" then some [0] else if p = "d/b" then some [0] else none⟩

/-- Discovered records of the unreadable-candidate scenario. -/
def files3 : List MyFile :=
  [⟨"d/a", some 1, none⟩, ⟨"d/b", some 1, none⟩, ⟨"d/c", some 1, none⟩]

/-- Snapshot for the failing-stat scenario: the entry d/c cannot be
statted while d/a and d/b can. -/
def fs4 : FS :=
  ⟨fun p => if p = "d/a" then some 1 else if p = "d/b" then some 1 else none,
   fun _ => none⟩

/-- Walk output of the failing-stat scenario, visiting the failing entry
between two readable ones. -/
def walk4 : List (String × List String) := [("d", ["a", "c", "b"])]

/-- Every input element of a successful comprehension is sent to some output
element. -/
theorem mapExcept_ok_forward {f : α → Except ε β} {l : List α} {l2 : List β}
    (h : mapExcept f l = Except.ok l2) :
    ∀ a ∈ l, ∃ b, b ∈ l2 ∧ f a = Except.ok b := by
  induction l generalizing l2 with
  | nil => intro a ha; cases ha
  | cons x t ih =>
    intro a ha
    cases hfx : f x with
    | error e => simp [mapExcept, hfx] at h
    | ok b =>
      cases hrec : mapExcept f t with
      | error e => simp [mapExcept, hfx, hrec] at h
      | ok bs =>
        simp [mapExcept, hfx, hrec] at h
        subst h
        cases ha with
        | head => exact ⟨b, List.mem_cons_self _ _, hfx⟩
        | tail _ hat =>
          obtain ⟨b2, hb2, hfb2⟩ := ih hrec a hat
          exact ⟨b2, List.mem_cons_of_mem _ hb2, hfb2⟩

/-- Every output element of a successful comprehension comes from some input
element. -/
theorem mapExcept_ok_backward {f : α → Except ε β} {l : List α} {l2 : List β}
    (h : mapExcept f l = Except.ok l2) :
    ∀ b ∈ l2, ∃ a, a ∈ l ∧ f a = Except.ok b := by
  induction l generalizing l2 with
  | nil =>
    simp [mapExcept] at h
    subst h
    intro b hb
    cases hb
  | cons x t ih =>
    cases hfx : f x with
    | error e => simp [mapExcept, hfx] at h
    | ok bhead =>
      cases hrec : mapExcept f t with
      | error e => simp [mapExcept, hfx, hrec] at h
      | ok bs =>
        simp [mapExcept, hfx, hrec] at h
        subst h
        intro b hb
        cases hb with
        | head => exact ⟨x, List.mem_cons_self _ _, hfx⟩
        | tail _ hbt =>
          obtain ⟨a, hat, hfa⟩ := ih hrec b hbt
          exact ⟨a, List.mem_cons_of_mem _ hat, hfa⟩

/-- A raising element makes the whole comprehension raise. -/
theorem mapExcept_error_of_mem {f : α → Except ε β} {l : List α} {a : α} {e : ε}
    (ha : a ∈ l) (hfa : f a = Except.error e) :
    ∃ e2, mapExcept f l = Except.error e2 := by
  induction l with
  | nil => cases ha
  | cons x t ih =>
    cases hfx : f x with
    | error e0 => exact ⟨e0, by simp [mapExcept, hfx]⟩
    | ok b =>
      cases ha with
      | head => rw [hfx] at hfa; cases hfa
      | tail _ hat =>
        obtain ⟨e2, he2⟩ := ih hat
        exact ⟨e2, by simp [mapExcept, hfx, he2]⟩

/-- The comprehension only looks at the element expression on the list
elements. -/
theorem mapExcept_congr {f g : α → Except ε β} {l : List α}
    (h : ∀ a ∈ l, f a = g a) : mapExcept f l = mapExcept g l := by
  induction l with
  | nil => rfl
  | cons x t ih =>
    have hx := h x (List.mem_cons_self _ _)
    have ht : ∀ a ∈ t, f a = g a := fun a ha => h a (List.mem_cons_of_mem _ ha)
    simp [mapExcept, hx, ih ht]

/-- Membership in the phase-1 candidate list. -/
theorem mem_size_candidates {files : List MyFile} {f : MyFile} :
    f ∈ size_candidates files ↔ f ∈ files ∧ 2 ≤ count_size files f.size := by
  simp [size_candidates, List.mem_filter]

/-- Counter keys carry no duplicates. -/
theorem counter_keys_nodup [DecidableEq α] (l : List α) : (counter_keys l).Nodup := by
  induction l with
  | nil => exact List.nodup_nil
  | cons a t ih =>
    rw [counter_keys]
    refine List.nodup_cons.mpr ⟨?_, ih.filter _⟩
    intro hmem
    have := (List.mem_filter.mp hmem).2
    simp at this

/-- Counter keys are exactly the values occurring in the list. -/
theorem counter_keys_mem [DecidableEq α] {l : List α} {a : α} :
    a ∈ counter_keys l ↔ a ∈ l := by
  induction l with
  | nil => simp [counter_keys]
  | cons x t ih =>
    by_cases hax : a = x
    · subst hax; simp [counter_keys]
    · simp [counter_keys, List.mem_filter, ih, hax]

/-- A list holding two distinct elements has length at least two. -/
theorem two_le_length_of_mem {l : List α} {a b : α} :
    a ∈ l → b ∈ l → a ≠ b → 2 ≤ l.length := by
  induction l with
  | nil => intro ha; cases ha
  | cons x t ih =>
    intro ha hb hne
    cases ha with
    | head =>
      cases hb with
      | head => exact absurd rfl hne
      | tail _ hbt =>
        have h1 := List.length_pos_of_mem hbt
        simp only [List.length_cons]
        omega
    | tail _ hat =>
      cases hb with
      | head =>
        have h1 := List.length_pos_of_mem hat
        simp only [List.length_cons]
        omega
      | tail _ hbt =>
        have h2 := ih hat hbt hne
        simp only [List.length_cons]
        omega

/-- Characterization of a successful get_hash call. -/
theorem get_hash_ok_elim {H : List Nat → String} {fs : FS} {c r : MyFile}
    (h : MyFile.get_hash H fs c = Except.ok r) :
    ∃ cont, fs.read c.path = some cont ∧ r = ⟨c.path, c.size, some (H cont)⟩ := by
  cases h2 : fs.read c.path with
  | none => simp [MyFile.get_hash, h2] at h
  | some cont =>
    simp [MyFile.get_hash, h2] at h
    exact ⟨cont, rfl, h.symm⟩

/-- Characterization of a successful get_size call. -/
theorem get_size_ok_elim {fs : FS} {p : String} {f : MyFile}
    (h : MyFile.get_size fs p = Except.ok f) :
    ∃ n, fs.stat p = some n ∧ f = ⟨p, some n, none⟩ := by
  cases h2 : fs.stat p with
  | none => simp [MyFile.get_size, h2] at h
  | some n =>
    simp [MyFile.get_size, h2] at h
    exact ⟨n, rfl, h.symm⟩

/-- Structure of a successful find_duplicate run. -/
theorem find_duplicate_ok_elim {H : List Nat → String} {fs : FS}
    {files : List MyFile} {gs : List (List MyFile)}
    (h : find_duplicate H fs files = Except.ok gs) :
    ∃ hashed, mapExcept (MyFile.get_hash H fs) (size_candidates files) = Except.ok hashed ∧
      gs = dup_groups hashed := by
  cases hm : mapExcept (MyFile.get_hash H fs) (size_candidates files) with
  | error e => rw [find_duplicate, hm] at h; cases h
  | ok hashed =>
    rw [find_duplicate, hm] at h
    cases h
    exact ⟨hashed, rfl, rfl⟩

/-- Every group delivered by phase 3 is the filter of the hashed records at
one hash key occurring at least twice. -/
theorem dup_groups_elim {hashed : List MyFile} {g : List MyFile}
    (h : g ∈ dup_groups hashed) :
    ∃ k, 2 ≤ count_hash hashed k ∧ g = hashed.filter (fun f => f.hash = k) := by
  rw [dup_groups] at h
  obtain ⟨k, hk, hmap⟩ := List.mem_map.mp h
  have hm := List.mem_filter.mp hk
  refine ⟨k, by simpa using hm.2, hmap.symm⟩

/-- Membership in the filter of the hashed records at a key. -/
theorem mem_filter_hash {hashed : List MyFile} {k : Option String} {r : MyFile}
    (h : r ∈ hashed.filter (fun f => f.hash = k)) : r ∈ hashed ∧ r.hash = k := by
  have hm := List.mem_filter.mp h
  exact ⟨hm.1, by simpa using hm.2⟩

/-- Every hashed record stems from a size-collision candidate, keeping its
path and size and taking the digest of its readable content as hash. -/
theorem hashed_member_spec {H : List Nat → String} {fs : FS}
    {files hashed : List MyFile} {r : MyFile}
    (hmap : mapExcept (MyFile.get_hash H fs) (size_candidates files) = Except.ok hashed)
    (hr : r ∈ hashed) :
    ∃ c, c ∈ files ∧ 2 ≤ count_size files c.size ∧ r.path = c.path ∧ r.size = c.size ∧
      ∃ cont, fs.read c.path = some cont ∧ r.hash = some (H cont) := by
  obtain ⟨c, hc, hok⟩ := mapExcept_ok_backward hmap r hr
  obtain ⟨hcf, hc2⟩ := mem_size_candidates.mp hc
  obtain ⟨cont, hread, rfl⟩ := get_hash_ok_elim hok
  exact ⟨c, hcf, hc2, rfl, rfl, cont, hread, rfl⟩

/-- Decomposition of a successful constructor run into its phases. -/
theorem init_ok_elim {H : List Nat → String} {fs : FS} {p : String}
    {w : List (String × List String)} {d : DetectDuplicate}
    (h : DetectDuplicate.init H fs p w = Except.ok d) :
    get_files fs w = Except.ok d.files ∧ find_duplicate H fs d.files = Except.ok d.hash ∧
      d.path = p ∧ d.summary = gen_details p d.files d.hash := by
  rw [DetectDuplicate.init] at h
  split at h
  · cases h
  · rename_i files hgf
    split at h
    · cases h
    · rename_i gs hfd
      cases h
      exact ⟨hgf, hfd, rfl, rfl⟩

/-- Every discovered record comes from a surviving walk entry, with its size
taken from stat and its hash unset. -/
theorem get_files_mem {fs : FS} {w : List (String × List String)}
    {files : List MyFile} (h : get_files fs w = Except.ok files) :
    ∀ f ∈ files, ∃ e, e ∈ filtered_walk w ∧ f.path = os_path_join e.1 e.2 ∧
      fs.stat f.path = f.size ∧ f.hash = none := by
  intro f hf
  obtain ⟨e, he, hok⟩ := mapExcept_ok_backward h f hf
  obtain ⟨n, hstat, rfl⟩ := get_size_ok_elim hok
  exact ⟨e, he, rfl, hstat, rfl⟩

/-- C1: in every successful __find_duplicate run over the discovered
records, a record whose size occurs exactly once in the full list is not
among the phase-1 candidates, which are exactly the records get_hash is
invoked on, and no member of any produced duplicate group even shares its
size, so it appears in no group. -/
theorem c1_unique_size_never_hashed (H : List Nat → String) (fs : FS)
    (files : List MyFile) (f : MyFile) (gs : List (List MyFile))
    (_hf : f ∈ files) (huniq : count_size files f.size = 1)
    (hok : find_duplicate H fs files = Except.ok gs) :
    f ∉ size_candidates files ∧ ∀ g ∈ gs, ∀ r ∈ g, r.size ≠ f.size := by
  have hnc : f ∉ size_candidates files := by
    intro hmem
    have h2 := (mem_size_candidates.mp hmem).2
    omega
  refine ⟨hnc, ?_⟩
  obtain ⟨hashed, hmap, hgs⟩ := find_duplicate_ok_elim hok
  subst hgs
  intro g hg r hr heq
  obtain ⟨k, hk, hgdef⟩ := dup_groups_elim hg
  subst hgdef
  have hrm := (mem_filter_hash hr).1
  obtain ⟨c, hcf, hc2, hpath, hsize, _⟩ := hashed_member_spec hmap hrm
  have hcs : c.size = f.size := hsize.symm.trans heq
  rw [hcs] at hc2
  omega

/-- C1 witness: in the concrete tree, the record t/d of unique size 1 is
not a hashing candidate and no group member shares its size. -/
theorem c1_witness :
    recD ∉ size_candidates filesW ∧ ∀ g ∈ groupsW, ∀ r ∈ g, r.size ≠ recD.size :=
  c1_unique_size_never_hashed H0 fsW filesW recD groupsW (by decide) (by decide) rfl

/-- C2: on a POSIX system the os module exposes EX_USAGE with value 64, and
because lines 61-62 look up the attribute named EX_USAGE instead of
EX_CONFIG and EX_CANTCREAT, the three failure exit codes all evaluate
to 64: a configuration-error run, a usage-error run and a failed-dump run
of main return the same value, refuting pairwise distinctness. -/
theorem c2_exit_codes_collapse :
    EX_OK posix_os = 0 ∧
    EX_USAGE posix_os = 64 ∧ EX_CONFIG posix_os = 64 ∧ EX_CANTCREAT posix_os = 64 ∧
    duplicatefile.main posix_os ⟨true, false, true, false, true⟩ =
      duplicatefile.main posix_os ⟨true, true, false, false, true⟩ ∧
    duplicatefile.main posix_os ⟨true, true, true, true, false⟩ = 64 :=
  ⟨rfl, rfl, rfl, rfl, rfl, rfl⟩

/-- C3 counterexample: in the concrete scenario fs3 the files d/a and d/b
are readable duplicates while the same-size candidate d/c stats fine but
cannot be opened; __find_duplicate does not skip d/c and produce the group
for the remaining candidates, it propagates the OSError and aborts. -/
theorem c3_counterexample :
    find_duplicate H0 fs3 files3 = Except.error "d/c" := rfl

/-- C3 amended: when any size-collision candidate cannot be opened for
hashing, __find_duplicate raises instead of completing: the whole scan
aborts with an error and no duplicate groups are produced. -/
theorem c3_unreadable_candidate_aborts (H : List Nat → String) (fs : FS)
    (files : List MyFile) (c : MyFile)
    (hc : c ∈ size_candidates files) (hread : fs.read c.path = none) :
    ∃ e, find_duplicate H fs files = Except.error e := by
  have hfail : MyFile.get_hash H fs c = Except.error c.path := by
    rw [MyFile.get_hash, hread]
  obtain ⟨e2, he2⟩ := mapExcept_error_of_mem hc hfail
  exact ⟨e2, by rw [find_duplicate, he2]⟩

/-- C3 witness: the amended statement applied to the concrete scenario. -/
theorem c3_witness : ∃ e, find_duplicate H0 fs3 files3 = Except.error e :=
  c3_unreadable_candidate_aborts H0 fs3 files3 ⟨"d/c", some 1, none⟩ (by decide) rfl

/-- C4 counterexample: with fs4 the entry d/c cannot be statted while d/a
and d/b can; __get_files does not skip d/c and return records for the
remaining readable files, it propagates the OSError and fails as a whole. -/
theorem c4_counterexample :
    get_files fs4 walk4 = Except.error "d/c" := rfl

/-- C4 amended: when reading size metadata fails for one surviving walk
entry, __get_files raises instead of skipping that entry: the whole scan
fails and no record list is produced. -/
theorem c4_stat_failure_aborts (fs : FS) (walk : List (String × List String))
    (e : String × String) (he : e ∈ filtered_walk walk)
    (hstat : fs.stat (os_path_join e.1 e.2) = none) :
    ∃ err, get_files fs walk = Except.error err := by
  have hfail : MyFile.get_size fs (os_path_join e.1 e.2)
      = Except.error (os_path_join e.1 e.2) := by
    rw [MyFile.get_size, hstat]
  obtain ⟨e2, he2⟩ :=
    @mapExcept_error_of_mem (String × String) String MyFile
      (fun x => MyFile.get_size fs (os_path_join x.1 x.2))
      (filtered_walk walk) e (os_path_join e.1 e.2) he hfail
  exact ⟨e2, he2⟩

/-- C4 witness: the amended statement applied to the concrete scenario. -/
theorem c4_witness : ∃ err, get_files fs4 walk4 = Except.error err :=
  c4_stat_failure_aborts fs4 walk4 ("d", "c") (by decide) rfl

/-- Digests produced by H0 determine the content length. -/
theorem H0_length {c1 c2 : List Nat} (h : H0 c1 = H0 c2) : c1.length = c2.length := by
  have hd : c1.map Char.ofNat = c2.map Char.ofNat := congrArg String.data h
  have h2 := congrArg List.length hd
  simpa using h2

/-- In a snapshot built by fs_of_read, stat always reports the length of the
readable content. -/
theorem fs_of_read_consistent (r : String → Option (List Nat)) (p : String)
    (c : List Nat) (h : (fs_of_read r).read p = some c) :
    (fs_of_read r).stat p = some c.length := by
  have h2 : r p = some c := h
  show (r p).map List.length = some c.length
  rw [h2]
  rfl

/-- A hashed record whose path reads to a known content carries the digest
of that content. -/
theorem hashed_hash_of_path {H : List Nat → String} {fs : FS}
    {files hashed : List MyFile} {r : MyFile} {q : String} {cq : List Nat}
    (hmap : mapExcept (MyFile.get_hash H fs) (size_candidates files) = Except.ok hashed)
    (hr : r ∈ hashed) (hq : r.path = q) (hread : fs.read q = some cq) :
    r.hash = some (H cq) := by
  obtain ⟨c, _, _, hpathc, _, cont, hrdc, hhc⟩ := hashed_member_spec hmap hr
  have hcq : c.path = q := hpathc.symm.trans hq
  rw [hcq, hread] at hrdc
  have hce : cq = cont := Option.some.inj hrdc
  rw [hhc, ← hce]

/-- C5: in every successful detector run over a snapshot in which stat
agrees with the length of the readable content, and with a digest function
whose collisions preserve the content length, every produced duplicate
group has at least two members and all members of one group carry the same
size and the same hash. -/
theorem c5_group_invariants (H : List Nat → String) (fs : FS) (p : String)
    (w : List (String × List String)) (d : DetectDuplicate)
    (hinit : DetectDuplicate.init H fs p w = Except.ok d)
    (hcons : ∀ q c, fs.read q = some c → fs.stat q = some c.length)
    (hlen : ∀ c1 c2, H c1 = H c2 → c1.length = c2.length) :
    ∀ g ∈ d.hash, 2 ≤ g.length ∧
      ∀ r1 ∈ g, ∀ r2 ∈ g, r1.size = r2.size ∧ r1.hash = r2.hash := by
  obtain ⟨hgf, hfd, _, _⟩ := init_ok_elim hinit
  obtain ⟨hashed, hmap, hgs⟩ := find_duplicate_ok_elim hfd
  intro g hg
  rw [hgs] at hg
  obtain ⟨k, hk, hgdef⟩ := dup_groups_elim hg
  constructor
  · rw [hgdef]
    exact hk
  · intro r1 h1 r2 h2
    rw [hgdef] at h1 h2
    obtain ⟨h1m, h1k⟩ := mem_filter_hash h1
    obtain ⟨h2m, h2k⟩ := mem_filter_hash h2
    obtain ⟨c1, hc1f, _, _, hs1, cont1, hr1, hh1⟩ := hashed_member_spec hmap h1m
    obtain ⟨c2, hc2f, _, _, hs2, cont2, hr2, hh2⟩ := hashed_member_spec hmap h2m
    have hhash : r1.hash = r2.hash := h1k.trans h2k.symm
    refine ⟨?_, hhash⟩
    obtain ⟨e1, he1, hj1, hstat1, hn1⟩ := get_files_mem hgf c1 hc1f
    obtain ⟨e2, he2, hj2, hstat2, hn2⟩ := get_files_mem hgf c2 hc2f
    have hsz1 : c1.size = some cont1.length := by
      rw [← hstat1]
      exact hcons c1.path cont1 hr1
    have hsz2 : c2.size = some cont2.length := by
      rw [← hstat2]
      exact hcons c2.path cont2 hr2
    have hHeq : H cont1 = H cont2 := by
      have h0 : some (H cont1) = some (H cont2) := by
        rw [← hh1, ← hh2, hhash]
      exact Option.some.inj h0
    have hle := hlen cont1 cont2 hHeq
    rw [hs1, hs2, hsz1, hsz2, hle]

/-- C5 witness: the first group of the concrete tree has two members of
equal size and equal hash. -/
theorem c5_witness :
    2 ≤ ([hashA, hashB] : List MyFile).length ∧
      ∀ r1 ∈ ([hashA, hashB] : List MyFile), ∀ r2 ∈ ([hashA, hashB] : List MyFile),
        r1.size = r2.size ∧ r1.hash = r2.hash :=
  c5_group_invariants H0 fsW "t" walkW dW rfl (fs_of_read_consistent readW)
    (fun c1 c2 h => H0_length h) [hashA, hashB] (by decide)

/-- C6: the duplicate groups of every successful detector run are pairwise
disjoint: no record belongs to two distinct groups. -/
theorem c6_groups_disjoint (H : List Nat → String) (fs : FS) (p : String)
    (w : List (String × List String)) (d : DetectDuplicate)
    (hinit : DetectDuplicate.init H fs p w = Except.ok d) :
    List.Pairwise (fun g1 g2 => ∀ r, r ∈ g1 → r ∉ g2) d.hash := by
  obtain ⟨_, hfd, _, _⟩ := init_ok_elim hinit
  obtain ⟨hashed, hmap, hgs⟩ := find_duplicate_ok_elim hfd
  rw [hgs, dup_groups, List.pairwise_map]
  have hnd : ((counter_keys (hashed.map MyFile.hash)).filter
      (fun k => 2 ≤ count_hash hashed k)).Nodup :=
    (counter_keys_nodup _).filter _
  refine List.Pairwise.imp ?_ hnd
  intro k1 k2 hne r hr1 hr2
  exact hne ((mem_filter_hash hr1).2.symm.trans (mem_filter_hash hr2).2)

/-- C6 witness: the two groups of the concrete tree are disjoint. -/
theorem c6_witness :
    List.Pairwise (fun g1 g2 => ∀ r, r ∈ g1 → r ∉ g2) dW.hash :=
  c6_groups_disjoint H0 fsW "t" walkW dW rfl

/-- C7: in every successful detector run, two discovered records with
distinct paths, equal size and equal readable content are both contained,
as hashed records identified by their paths, in exactly one duplicate
group; and when the digests of their contents differ, no duplicate group
contains records for both paths. -/
theorem c7_content_grouping (H : List Nat → String) (fs : FS) (p : String)
    (w : List (String × List String)) (d : DetectDuplicate) (A B : MyFile)
    (cA cB : List Nat)
    (hinit : DetectDuplicate.init H fs p w = Except.ok d)
    (hA : A ∈ d.files) (hB : B ∈ d.files) (hpath : A.path ≠ B.path)
    (hsize : A.size = B.size)
    (hreadA : fs.read A.path = some cA) (hreadB : fs.read B.path = some cB) :
    (cA = cB → ∃ g, g ∈ d.hash ∧ containsPath g A.path ∧ containsPath g B.path ∧
      ∀ g2 ∈ d.hash, containsPath g2 A.path → g2 = g) ∧
    (H cA ≠ H cB → ∀ g ∈ d.hash, ¬(containsPath g A.path ∧ containsPath g B.path)) := by
  obtain ⟨hgf, hfd, _, _⟩ := init_ok_elim hinit
  obtain ⟨hashed, hmap, hgs⟩ := find_duplicate_ok_elim hfd
  have hAB : A ≠ B := fun h => hpath (congrArg MyFile.path h)
  have hcountA : 2 ≤ count_size d.files A.size := by
    have hAf : A ∈ d.files.filter (fun f => f.size = A.size) :=
      List.mem_filter.mpr ⟨hA, by simp⟩
    have hBf : B ∈ d.files.filter (fun f => f.size = A.size) :=
      List.mem_filter.mpr ⟨hB, by simp [← hsize]⟩
    exact two_le_length_of_mem hAf hBf hAB
  have hcandA : A ∈ size_candidates d.files := mem_size_candidates.mpr ⟨hA, hcountA⟩
  have hcandB : B ∈ size_candidates d.files := by
    refine mem_size_candidates.mpr ⟨hB, ?_⟩
    rw [← hsize]
    exact hcountA
  obtain ⟨rA, hrAm, hokA⟩ := mapExcept_ok_forward hmap A hcandA
  obtain ⟨contA, hrdA, hrAeq⟩ := get_hash_ok_elim hokA
  rw [hreadA] at hrdA
  have hca : cA = contA := Option.some.inj hrdA
  subst hca
  subst hrAeq
  obtain ⟨rB, hrBm, hokB⟩ := mapExcept_ok_forward hmap B hcandB
  obtain ⟨contB, hrdB, hrBeq⟩ := get_hash_ok_elim hokB
  rw [hreadB] at hrdB
  have hcb : cB = contB := Option.some.inj hrdB
  subst hcb
  subst hrBeq
  constructor
  · intro hcc
    have hrAf : (⟨A.path, A.size, some (H cA)⟩ : MyFile)
        ∈ hashed.filter (fun f => f.hash = some (H cA)) :=
      List.mem_filter.mpr ⟨hrAm, by simp⟩
    have hrBf : (⟨B.path, B.size, some (H cB)⟩ : MyFile)
        ∈ hashed.filter (fun f => f.hash = some (H cA)) :=
      List.mem_filter.mpr ⟨hrBm, by simp [hcc]⟩
    have hrne : (⟨A.path, A.size, some (H cA)⟩ : MyFile)
        ≠ (⟨B.path, B.size, some (H cB)⟩ : MyFile) := by
      intro h
      injection h with h1 h2 h3
      exact hpath h1
    have hck : 2 ≤ count_hash hashed (some (H cA)) :=
      two_le_length_of_mem hrAf hrBf hrne
    have hkmem : some (H cA) ∈ counter_keys (hashed.map MyFile.hash) :=
      counter_keys_mem.mpr (List.mem_map.mpr ⟨_, hrAm, rfl⟩)
    have hkfil : some (H cA) ∈ (counter_keys (hashed.map MyFile.hash)).filter
        (fun k => 2 ≤ count_hash hashed k) :=
      List.mem_filter.mpr ⟨hkmem, by simpa using hck⟩
    refine ⟨hashed.filter (fun f => f.hash = some (H cA)), ?_, ?_, ?_, ?_⟩
    · rw [hgs, dup_groups]
      exact List.mem_map.mpr ⟨some (H cA), hkfil, rfl⟩
    · exact ⟨_, hrAf, rfl⟩
    · exact ⟨_, hrBf, rfl⟩
    · intro g2 hg2 hcp
      rw [hgs] at hg2
      obtain ⟨k2, hk2, hg2def⟩ := dup_groups_elim hg2
      subst hg2def
      obtain ⟨r, hrg2, hrp⟩ := hcp
      obtain ⟨hrm, hrk⟩ := mem_filter_hash hrg2
      have hrh : r.hash = some (H cA) := hashed_hash_of_path hmap hrm hrp hreadA
      rw [← hrk, hrh]
  · intro hne g hg hcp
    obtain ⟨⟨r1, h1g, h1p⟩, ⟨r2, h2g, h2p⟩⟩ := hcp
    rw [hgs] at hg
    obtain ⟨k, hk, hgdef⟩ := dup_groups_elim hg
    subst hgdef
    obtain ⟨h1m, h1k⟩ := mem_filter_hash h1g
    obtain ⟨h2m, h2k⟩ := mem_filter_hash h2g
    have hr1h : r1.hash = some (H cA) := hashed_hash_of_path hmap h1m h1p hreadA
    have hr2h : r2.hash = some (H cB) := hashed_hash_of_path hmap h2m h2p hreadB
    have : some (H cA) = some (H cB) := by
      rw [← hr1h, ← hr2h, h1k, h2k]
    exact hne (Option.some.inj this)

/-- C7 witness: in the concrete tree, t/a and t/b share size and content and
fall together in exactly one group; t/a and t/c share size but differ in
content and digest and no group contains both. -/
theorem c7_witness :
    (([1, 2] : List Nat) = [1, 2] → ∃ g, g ∈ dW.hash ∧ containsPath g recA.path ∧
        containsPath g recB.path ∧ ∀ g2 ∈ dW.hash, containsPath g2 recA.path → g2 = g) ∧
    (H0 [1, 2] ≠ H0 [3, 4] → ∀ g ∈ dW.hash,
        ¬(containsPath g recA.path ∧ containsPath g recC.path)) :=
  ⟨(c7_content_grouping H0 fsW "t" walkW dW recA recB [1, 2] [1, 2] rfl
      (by decide) (by decide) (by decide) rfl rfl rfl).1,
   (c7_content_grouping H0 fsW "t" walkW dW recA recC [1, 2] [3, 4] rfl
      (by decide) (by decide) (by decide) rfl rfl rfl).2⟩

/-- C8: for every successful detector run, the serialized document has
exactly the three top-level keys path, duplicate and files in source order;
path holds the scanned root, duplicate holds one entry per duplicate group
mapping the hash shared by all its members to the list of member paths,
every such group having at least two members, and files holds the path of
every discovered record. -/
theorem c8_json_document (H : List Nat → String) (fs : FS) (p : String)
    (w : List (String × List String)) (d : DetectDuplicate)
    (hinit : DetectDuplicate.init H fs p w = Except.ok d) :
    DetectDuplicate.get_json d =
      [("path", JVal.str p),
       ("duplicate", JVal.obj (d.hash.map (fun g => (firstHash g, g.map MyFile.path)))),
       ("files", JVal.arr (d.files.map MyFile.path))] ∧
    (DetectDuplicate.get_json d).map Prod.fst = ["path", "duplicate", "files"] ∧
    get_files fs w = Except.ok d.files ∧
    ∀ g ∈ d.hash, 2 ≤ g.length ∧ ∀ r ∈ g, r.hash = firstHash g := by
  obtain ⟨hgf, hfd, hpp, hsum⟩ := init_ok_elim hinit
  refine ⟨?_, ?_, hgf, ?_⟩
  · rw [DetectDuplicate.get_json, hsum, gen_details]
  · rw [DetectDuplicate.get_json, hsum, gen_details]
    rfl
  · obtain ⟨hashed, hmap, hgs⟩ := find_duplicate_ok_elim hfd
    intro g hg
    rw [hgs] at hg
    obtain ⟨k, hk, hgdef⟩ := dup_groups_elim hg
    subst hgdef
    refine ⟨hk, ?_⟩
    intro r hr
    have hrk : r.hash = k := (mem_filter_hash hr).2
    cases hl : hashed.filter (fun f => f.hash = k) with
    | nil =>
      rw [hl] at hr
      cases hr
    | cons r0 rest =>
      have h0 : r0 ∈ hashed.filter (fun f => f.hash = k) := by
        rw [hl]
        exact List.mem_cons_self _ _
      have h0k : r0.hash = k := (mem_filter_hash h0).2
      show r.hash = firstHash (r0 :: rest)
      rw [hrk, ← h0k]
      rfl

/-- C8 witness: the document of the concrete tree. -/
theorem c8_witness :
    DetectDuplicate.get_json dW =
      [("path", JVal.str "t"),
       ("duplicate", JVal.obj (dW.hash.map (fun g => (firstHash g, g.map MyFile.path)))),
       ("files", JVal.arr (dW.files.map MyFile.path))] ∧
    (DetectDuplicate.get_json dW).map Prod.fst = ["path", "duplicate", "files"] ∧
    get_files fsW walkW = Except.ok dW.files ∧
    ∀ g ∈ dW.hash, 2 ≤ g.length ∧ ∀ r ∈ g, r.hash = firstHash g :=
  c8_json_document H0 fsW "t" walkW dW rfl

/-- C9: the detector output is a function of the traversal output and the
per-path stat and read results alone: two runs over snapshots that agree
at every surviving walk entry produce identical results, in particular
identical duplicate-group membership. A second run over one unchanged tree
is the special case where both snapshots are the same. -/
theorem c9_rerun_same_tree (H : List Nat → String) (fs1 fs2 : FS) (p : String)
    (w : List (String × List String))
    (hstat : ∀ e ∈ filtered_walk w,
      fs1.stat (os_path_join e.1 e.2) = fs2.stat (os_path_join e.1 e.2))
    (hread : ∀ e ∈ filtered_walk w,
      fs1.read (os_path_join e.1 e.2) = fs2.read (os_path_join e.1 e.2)) :
    DetectDuplicate.init H fs1 p w = DetectDuplicate.init H fs2 p w := by
  have h1 : get_files fs1 w = get_files fs2 w := by
    apply mapExcept_congr
    intro e he
    rw [MyFile.get_size, MyFile.get_size, hstat e he]
  rw [DetectDuplicate.init, DetectDuplicate.init, h1]
  cases hgf : get_files fs2 w with
  | error e => rfl
  | ok files =>
    show (match find_duplicate H fs1 files with
      | Except.error e => Except.error e
      | Except.ok hash =>
          Except.ok (⟨p, files, hash, gen_details p files hash⟩ : DetectDuplicate)) =
      (match find_duplicate H fs2 files with
      | Except.error e => Except.error e
      | Except.ok hash =>
          Except.ok (⟨p, files, hash, gen_details p files hash⟩ : DetectDuplicate))
    have h2 : find_duplicate H fs1 files = find_duplicate H fs2 files := by
      rw [find_duplicate, find_duplicate]
      have h3 : mapExcept (MyFile.get_hash H fs1) (size_candidates files)
          = mapExcept (MyFile.get_hash H fs2) (size_candidates files) := by
        apply mapExcept_congr
        intro c hc
        have hcf : c ∈ files := (mem_size_candidates.mp hc).1
        obtain ⟨e, he, hpath, _, _⟩ := get_files_mem hgf c hcf
        rw [MyFile.get_hash, MyFile.get_hash, hpath, hread e he]
      rw [h3]
    rw [h2]

/-- C9 witness: the run over the concrete tree and the run over a snapshot
agreeing with it on every walked path coincide. -/
theorem c9_witness :
    DetectDuplicate.init H0 fsW "t" walkW = DetectDuplicate.init H0 fsW2 "t" walkW :=
  c9_rerun_same_tree H0 fsW fsW2 "t" walkW (by decide) (by decide)

/-- C10: a successful get_hash call returns a new record with the same path
and size as the input and only the hash field newly set, to the digest of
the content read at the path; the input record value is untouched, the
result being a freshly built record. -/
theorem c10_get_hash_frame (H : List Nat → String) (fs : FS) (f r : MyFile)
    (h : MyFile.get_hash H fs f = Except.ok r) :
    r.path = f.path ∧ r.size = f.size ∧
      ∃ c, fs.read f.path = some c ∧ r = ⟨f.path, f.size, some (H c)⟩ := by
  obtain ⟨c, hread, rfl⟩ := get_hash_ok_elim h
  exact ⟨rfl, rfl, c, hread, rfl⟩

/-- C10 witness: hashing the record for t/a keeps its path and size and
sets exactly the digest of its content. -/
theorem c10_witness :
    hashA.path = recA.path ∧ hashA.size = recA.size ∧
      ∃ c, fsW.read recA.path = some c ∧ hashA = ⟨recA.path, recA.size, some (H0 c)⟩ :=
  c10_get_hash_frame H0 fsW recA hashA rfl
